import Mathlib

/-!
Formal model of the Pixel Garden procedural growth and rendering engine
(src/vite.config.js).  Numeric state is modelled with exact rationals;
the hue computation, which involves Math.sin, is modelled over the reals.
Every random draw that the source takes from Math.random() is passed as an
explicit parameter ranging over [0, 1).
-/

namespace PixelGarden

/-- One planted seed: position, current size, accumulated life, colour base
and an identity token.  The token is modelled as the list of the first seven
base-36 fractional digits of the random draw, matching
Math.random().toString(36).slice(2, 9). -/
structure Seed where
  x : ℚ
  y : ℚ
  size : ℚ
  life : ℚ
  hueBase : ℚ
  id : List ℕ
deriving DecidableEq

/-- Deceleration factor from the ternary (s.life < 10 ? 1 : 0.1); the source
reads s.life after it has already been incremented this frame. -/
def growthFactor (life : ℚ) : ℚ := if life < 10 then 1 else 0.1

/-- Growth Step from draw: s.life += 0.02 * speed and then
s.size += (0.3 * speed) * (1 - s.size / 150) * (s.life < 10 ? 1 : 0.1). -/
def advance (s : Seed) (speed : ℚ) : Seed :=
  let lifeNext := s.life + 0.02 * speed
  { s with
    life := lifeNext
    size := s.size + (0.3 * speed) * (1 - s.size / 150) * growthFactor lifeNext }

/-- Expiry test from draw: s.life > 120 || s.size > 220, evaluated after the
Growth Step of the same frame. -/
def expired (s : Seed) : Bool := decide (s.life > 120) || decide (s.size > 220)

/-- One frame of the population update: every seed receives a Growth Step and
is dropped exactly when expired afterwards.  The source iterates backwards
over the array and splices expired entries out, which visits every seed once
and preserves the relative order of the survivors. -/
def frameStep (speed : ℚ) : List Seed → List Seed
  | [] => []
  | s :: rest =>
    let sNext := advance s speed
    if expired sNext then frameStep speed rest else sNext :: frameStep speed rest

/-- Iterated Growth Steps, one per frame, with a possibly varying speed. -/
def advanceMany (s : Seed) : List ℚ → Seed
  | [] => s
  | sp :: rest => advanceMany (advance s sp) rest

/-- Truncation toward zero, the rounding used by the JavaScript % operator. -/
def jsTrunc (x : ℚ) : ℤ := if 0 ≤ x then ⌊x⌋ else ⌈x⌉

/-- The JavaScript remainder a % b; the result carries the sign of a. -/
def jsRem (a b : ℚ) : ℚ := a - b * jsTrunc (a / b)

/-- Identity token built from one random draw:
Math.random().toString(36).slice(2, 9) keeps the first seven base-36
fractional digits of the draw, modelled here as that digit list. -/
def mkId (r : ℚ) : List ℕ :=
  (List.range 7).map fun k => (⌊r * 36 ^ (k + 1)⌋).toNat % 36

/-- plantSeed: canvas-local position is the client coordinate minus the
bounding rectangle corner, size = 2 + random * 6, life = 0,
hueBase = (paletteSeed + random * 0.6) % 1, and a fresh identity token. -/
def plantSeed (clientX clientY rectLeft rectTop paletteSeed rSize rHue rId : ℚ) : Seed :=
  { x := clientX - rectLeft
    y := clientY - rectTop
    size := 2 + rSize * 6
    life := 0
    hueBase := jsRem (paletteSeed + rHue * 0.6) 1
    id := mkId rId }

/-- spawnCount = Math.floor((Math.random() + s.life * 0.05) * (speed * 0.5)). -/
def spawnCount (r life speed : ℚ) : ℤ := ⌊(r + life * 0.05) * (speed * 0.5)⌋

/-- dist = Math.random() * s.size * 0.9. -/
def pixelDist (r size : ℚ) : ℚ := r * size * 0.9

/-- alpha = Math.min(1, 0.8 * (1 - dist / (s.size + 1))). -/
def pixelAlpha (dist size : ℚ) : ℚ := min 1 (0.8 * (1 - dist / (size + 1)))

/-- Size argument handed to drawPixel:
Math.max(1, brush * (0.3 + Math.random() * 0.8)). -/
def pixelDrawSize (brush r : ℚ) : ℚ := max 1 (brush * (0.3 + r * 0.8))

/-- Radius of the arc that drawPixel actually fills: its size argument is
scaled again by (0.35 + Math.random() * 0.85) before ctx.arc is called. -/
def drawPixelRadius (size r : ℚ) : ℚ := size * (0.35 + r * 0.85)

/-- Radius of the dot rendered for one spawned pixel: the composition of the
call site in draw with the scaling inside drawPixel. -/
def renderedDotRadius (brush r1 r2 : ℚ) : ℚ := drawPixelRadius (pixelDrawSize brush r1) r2

/-- Backing buffer dimensions and the context scale transform. -/
structure CanvasState where
  width : ℚ
  height : ℚ
  scale : ℚ
deriving DecidableEq

/-- handleResize: unconditionally reallocates the buffer to the client size
times devicePixelRatio and resets the transform; there is no check for a
zero-area container. -/
def handleResize (clientWidth clientHeight dpr : ℚ) (_c : CanvasState) : CanvasState :=
  { width := clientWidth * dpr, height := clientHeight * dpr, scale := dpr }

/-- Truncation toward zero over the reals (JavaScript % semantics). -/
noncomputable def jsTruncR (x : ℝ) : ℤ := if 0 ≤ x then ⌊x⌋ else ⌈x⌉

/-- JavaScript remainder over the reals. -/
noncomputable def jsRemR (a b : ℝ) : ℝ := a - b * jsTruncR (a / b)

/-- Dividend of the hue computation:
s.hueBase * 360 + Math.sin(s.life + k) * 20, where k is the index of the
pixel inside the current batch. -/
noncomputable def hueRaw (hueBase life : ℝ) (k : ℕ) : ℝ :=
  hueBase * 360 + Real.sin (life + k) * 20

/-- hue = (s.hueBase * 360 + Math.sin(s.life + k) * 20) % 360, with % the
JavaScript remainder. -/
noncomputable def pixelHue (hueBase life : ℝ) (k : ℕ) : ℝ :=
  jsRemR (hueRaw hueBase life k) 360

/-- Modelled from the spec: the mathematical modulo named by the hue claim,
the representative of a modulo b inside [0, b). -/
noncomputable def specMod (a b : ℝ) : ℝ := a - b * ⌊a / b⌋

/-- A seed state used for concrete evaluations: age 0, size 5. -/
def seedA : Seed := { x := 0, y := 0, size := 5, life := 0, hueBase := 0, id := [] }

/-- A seed state whose size already exceeds the soft cap of 150. -/
def seedB : Seed := { x := 0, y := 0, size := 160, life := 0, hueBase := 0, id := [0] }

/-- A seed state that expires on its next Growth Step. -/
def seedC : Seed := { x := 3, y := 4, size := 50, life := 121, hueBase := 0, id := [1] }

/-- A seed state that survives its next Growth Step. -/
def seedD : Seed := { x := 5, y := 6, size := 10, life := 1, hueBase := 0, id := [2] }

/-- A canvas buffer state with a non-empty backing buffer. -/
def canvasA : CanvasState := { width := 300, height := 200, scale := 1 }

theorem advance_id (s : Seed) (sp : ℚ) : (advance s sp).id = s.id := rfl

theorem advance_life_eq (s : Seed) (sp : ℚ) :
    (advance s sp).life = s.life + 0.02 * sp := rfl

theorem advance_size_eq (s : Seed) (sp : ℚ) :
    (advance s sp).size =
      s.size + (0.3 * sp) * (1 - s.size / 150) * growthFactor (s.life + 0.02 * sp) := rfl

theorem expired_iff (s : Seed) : expired s = true ↔ 120 < s.life ∨ 220 < s.size := by
  simp [expired]

theorem growthFactor_pos (life : ℚ) : 0 < growthFactor life := by
  unfold growthFactor
  split <;> norm_num

theorem growthFactor_le_one (life : ℚ) : growthFactor life ≤ 1 := by
  unfold growthFactor
  split <;> norm_num

theorem advance_life_le (s : Seed) {sp : ℚ} (hsp : 0 ≤ sp) :
    s.life ≤ (advance s sp).life := by
  rw [advance_life_eq]
  nlinarith

theorem advance_size_le (s : Seed) {sp : ℚ} (hsp : 0 ≤ sp) (h150 : s.size ≤ 150) :
    s.size ≤ (advance s sp).size := by
  rw [advance_size_eq]
  have hg := growthFactor_pos (s.life + 0.02 * sp)
  have hv : (0:ℚ) ≤ 1 - s.size / 150 := by linarith
  nlinarith [mul_nonneg (mul_nonneg (by linarith : (0:ℚ) ≤ 0.3 * sp) hv) hg.le]

theorem advance_size_le_150 (s : Seed) {sp : ℚ} (hsp : 0 ≤ sp) (hsp3 : sp ≤ 3)
    (h150 : s.size ≤ 150) : (advance s sp).size ≤ 150 := by
  rw [advance_size_eq]
  have hg := growthFactor_pos (s.life + 0.02 * sp)
  have hg1 := growthFactor_le_one (s.life + 0.02 * sp)
  have hv : (0:ℚ) ≤ 1 - s.size / 150 := by linarith
  have hc : 0.3 * sp * growthFactor (s.life + 0.02 * sp) ≤ 0.9 := by
    nlinarith [mul_le_mul hsp3 hg1 hg.le (by norm_num : (0:ℚ) ≤ 3)]
  have hkey : 0 ≤ (150 - 0.3 * sp * growthFactor (s.life + 0.02 * sp)) * (1 - s.size / 150) :=
    mul_nonneg (by linarith) hv
  nlinarith [hkey]

theorem advance_size_lt_150 (s : Seed) {sp : ℚ} (hsp : 0 ≤ sp) (hsp3 : sp ≤ 3)
    (h150 : s.size < 150) : (advance s sp).size < 150 := by
  rw [advance_size_eq]
  have hg := growthFactor_pos (s.life + 0.02 * sp)
  have hg1 := growthFactor_le_one (s.life + 0.02 * sp)
  have hv : (0:ℚ) < 1 - s.size / 150 := by linarith
  have hc : 0.3 * sp * growthFactor (s.life + 0.02 * sp) ≤ 0.9 := by
    nlinarith [mul_le_mul hsp3 hg1 hg.le (by norm_num : (0:ℚ) ≤ 3)]
  have hkey : 0 < (150 - 0.3 * sp * growthFactor (s.life + 0.02 * sp)) * (1 - s.size / 150) :=
    mul_pos (by linarith) hv
  nlinarith [hkey]

theorem advanceMany_invariant (speeds : List ℚ) (s : Seed)
    (hsp : ∀ sp ∈ speeds, 0 < sp ∧ sp ≤ 3) (h150 : s.size ≤ 150) :
    s.life ≤ (advanceMany s speeds).life ∧ s.size ≤ (advanceMany s speeds).size ∧
      (advanceMany s speeds).size ≤ 150 := by
  induction speeds generalizing s with
  | nil => exact ⟨le_refl _, le_refl _, h150⟩
  | cons sp rest ih =>
    obtain ⟨h1, h3⟩ := hsp sp (List.mem_cons_self sp rest)
    have hrest : ∀ q ∈ rest, 0 < q ∧ q ≤ 3 := fun q hq => hsp q (List.mem_cons_of_mem sp hq)
    obtain ⟨a, b, c⟩ := ih (advance s sp) hrest (advance_size_le_150 s h1.le h3 h150)
    simp only [advanceMany]
    exact ⟨le_trans (advance_life_le s h1.le) a,
      le_trans (advance_size_le s h1.le h150) b, c⟩

theorem advanceMany_size_lt_150 (speeds : List ℚ) (s : Seed)
    (hsp : ∀ sp ∈ speeds, 0 < sp ∧ sp ≤ 3) (h150 : s.size < 150) :
    (advanceMany s speeds).size < 150 := by
  induction speeds generalizing s with
  | nil => exact h150
  | cons sp rest ih =>
    obtain ⟨h1, h3⟩ := hsp sp (List.mem_cons_self sp rest)
    have hrest : ∀ q ∈ rest, 0 < q ∧ q ≤ 3 := fun q hq => hsp q (List.mem_cons_of_mem sp hq)
    simp only [advanceMany]
    exact ih (advance s sp) hrest (advance_size_lt_150 s h1.le h3 h150)

/-- C1: the claim as stated is false: from age 0, size 5 at speed 1 the new
size is not strictly less than 5 + 0.3 * (1 - 5 / 150); it equals that bound
exactly, because the deceleration factor is 1 for the young seed. -/
theorem c1_counterexample :
    ¬ ((advance seedA 1).life = 0.02 ∧ 5 < (advance seedA 1).size ∧
        (advance seedA 1).size < 5 + 0.3 * (1 - 5 / 150)) := by
  norm_num [advance, seedA, growthFactor]

/-- C1 (amended): for a seed with age 0 and size 5 advanced by one Growth Step
at speed 1, the age becomes exactly 0.02 and the size is strictly greater than
5 and exactly equal to 5 + 0.3 * (1 - 5 / 150), hence at most that bound but
not strictly below it. -/
theorem c1_growth_step (s : Seed) (hlife : s.life = 0) (hsize : s.size = 5) :
    (advance s 1).life = 0.02 ∧ 5 < (advance s 1).size ∧
      (advance s 1).size = 5 + 0.3 * (1 - 5 / 150) := by
  rw [advance_life_eq, advance_size_eq, hlife, hsize]
  norm_num [growthFactor]

theorem c1_growth_step_witness :
    (advance seedA 1).life = 0.02 ∧ 5 < (advance seedA 1).size ∧
      (advance seedA 1).size = 5 + 0.3 * (1 - 5 / 150) :=
  c1_growth_step seedA rfl rfl

/-- C2: the claim as stated is false: a seed whose size exceeds the soft cap
of 150 shrinks, because the factor (1 - size / 150) is negative; one Growth
Step at speed 1 strictly decreases the size of a seed of size 160. -/
theorem c2_counterexample : (advance seedB 1).size < seedB.size := by
  norm_num [advance, seedB, growthFactor]

/-- C2 (amended): for every seed whose size is at most 150 (which holds for
every seed the program plants, they start in [2, 8)) and every sequence of
Growth Steps with speeds in (0, 3] (the UI range), life and size never
decrease, and the size stays at most 150. -/
theorem c2_growth_monotone (s : Seed) (speeds : List ℚ) (h150 : s.size ≤ 150)
    (hsp : ∀ sp ∈ speeds, 0 < sp ∧ sp ≤ 3) :
    s.life ≤ (advanceMany s speeds).life ∧ s.size ≤ (advanceMany s speeds).size ∧
      (advanceMany s speeds).size ≤ 150 :=
  advanceMany_invariant speeds s hsp h150

theorem c2_growth_monotone_witness :
    seedA.life ≤ (advanceMany seedA [1, 2]).life ∧
      seedA.size ≤ (advanceMany seedA [1, 2]).size ∧
      (advanceMany seedA [1, 2]).size ≤ 150 :=
  c2_growth_monotone seedA [1, 2] (by norm_num [seedA])
    (by intro sp h; fin_cases h <;> constructor <;> norm_num)

theorem mem_frameStep_iff (speed : ℚ) (pop : List Seed) (t : Seed) :
    t ∈ frameStep speed pop ↔
      ∃ s ∈ pop, t = advance s speed ∧ ¬(120 < t.life ∨ 220 < t.size) := by
  induction pop with
  | nil => simp [frameStep]
  | cons s rest ih =>
    simp only [frameStep]
    by_cases h : expired (advance s speed) = true
    · rw [if_pos h, ih]
      constructor
      · rintro ⟨u, hu, rfl, hne⟩
        exact ⟨u, List.mem_cons_of_mem s hu, rfl, hne⟩
      · rintro ⟨u, hu, rfl, hne⟩
        rcases List.mem_cons.mp hu with rfl | hu2
        · exact absurd ((expired_iff _).mp h) hne
        · exact ⟨u, hu2, rfl, hne⟩
    · rw [if_neg h]
      constructor
      · intro ht
        rcases List.mem_cons.mp ht with rfl | ht2
        · exact ⟨s, List.mem_cons_self s rest, rfl,
            fun hx => h ((expired_iff _).mpr hx)⟩
        · obtain ⟨u, hu, rfl, hne⟩ := ih.mp ht2
          exact ⟨u, List.mem_cons_of_mem s hu, rfl, hne⟩
      · rintro ⟨u, hu, rfl, hne⟩
        rcases List.mem_cons.mp hu with rfl | hu2
        · exact List.mem_cons_self _ _
        · exact List.mem_cons_of_mem _ (ih.mpr ⟨u, hu2, rfl, hne⟩)

/-- C3: a seed survives the frame update exactly when, after its Growth Step,
neither life > 120 nor size > 220 holds; and the frame update never introduces
an identity token that is not already present in the population, so a removed
seed never reappears in later frames. -/
theorem c3_removal (speed : ℚ) (pop : List Seed) (t : Seed) :
    (t ∈ frameStep speed pop ↔
      ∃ s ∈ pop, t = advance s speed ∧ ¬(120 < t.life ∨ 220 < t.size)) ∧
    ((∀ s ∈ pop, s.id ≠ t.id) → t ∉ frameStep speed pop) := by
  refine ⟨mem_frameStep_iff speed pop t, fun hid ht => ?_⟩
  obtain ⟨u, hu, rfl, _⟩ := (mem_frameStep_iff speed pop _).mp ht
  exact hid u hu (advance_id u speed).symm

theorem c3_removal_witness : seedD ∉ frameStep 1 [seedC] :=
  (c3_removal 1 [seedC] seedD).2 (by
    intro s hs
    rw [List.mem_singleton] at hs
    subst hs
    norm_num [seedC, seedD])

/-- C4: the spawn count floor((random + age * 0.05) * (speed * 0.5)) is a
non-negative integer whenever the draw lies in [0, 1), the age is non-negative
and the speed is positive. -/
theorem c4_spawnCount_nonneg (r life speed : ℚ) (hr0 : 0 ≤ r) (hr1 : r < 1)
    (hlife : 0 ≤ life) (hspeed : 0 < speed) : 0 ≤ spawnCount r life speed := by
  unfold spawnCount
  have h1 : (0:ℚ) ≤ r + life * 0.05 := by linarith
  have h2 : (0:ℚ) ≤ speed * 0.5 := by linarith
  exact Int.floor_nonneg.mpr (mul_nonneg h1 h2)

theorem c4_spawnCount_nonneg_witness : 0 ≤ spawnCount (1/2) 10 1 :=
  c4_spawnCount_nonneg (1/2) 10 1 (by norm_num) (by norm_num) (by norm_num) (by norm_num)

/-- C5: for every seed size at least 0 (including 0) and every distance draw
in [0, 1), the spawned pixel alpha min(1, 0.8 * (1 - dist / (size + 1))) lies
in [0, 0.8]; the denominator size + 1 is never zero, so the expression is
always a well-defined finite rational. -/
theorem c5_alpha_range (r size : ℚ) (hr0 : 0 ≤ r) (hr1 : r < 1) (hs : 0 ≤ size) :
    0 ≤ pixelAlpha (pixelDist r size) size ∧
      pixelAlpha (pixelDist r size) size ≤ 0.8 ∧ size + 1 ≠ 0 := by
  have hs1 : (0:ℚ) < size + 1 := by linarith
  have hd0 : 0 ≤ pixelDist r size := by
    unfold pixelDist
    nlinarith [mul_nonneg hr0 hs]
  have hdlt : pixelDist r size < size + 1 := by
    unfold pixelDist
    nlinarith [mul_le_mul_of_nonneg_right hr1.le hs]
  have hq0 : 0 ≤ pixelDist r size / (size + 1) := div_nonneg hd0 hs1.le
  have hq1 : pixelDist r size / (size + 1) < 1 := (div_lt_one hs1).mpr hdlt
  unfold pixelAlpha
  refine ⟨le_min (by norm_num) (by nlinarith), le_trans (min_le_right 1 _) (by nlinarith),
    ne_of_gt hs1⟩

theorem c5_alpha_range_witness :
    0 ≤ pixelAlpha (pixelDist 0 0) 0 ∧ pixelAlpha (pixelDist 0 0) 0 ≤ 0.8 ∧ (0:ℚ) + 1 ≠ 0 :=
  c5_alpha_range 0 0 (by norm_num) (by norm_num) (by norm_num)

/-- C6: the claim as stated is false: the draw call hands
max(1, brush * (0.3 + r1 * 0.8)) to drawPixel, but drawPixel scales that
argument again by (0.35 + r2 * 0.85) before filling the arc; at brush 2 with
both draws 0 the rendered radius is 0.35, not the claimed max value 1, and in
particular below 1. -/
theorem c6_counterexample :
    ¬ (renderedDotRadius 2 0 0 = pixelDrawSize 2 0 ∧ 1 ≤ renderedDotRadius 2 0 0) := by
  norm_num [renderedDotRadius, drawPixelRadius, pixelDrawSize, max_def]

/-- C6 (amended): the size argument passed to drawPixel equals
max(1, brush * (0.3 + r1 * 0.8)) and is at least 1, but the radius actually
rendered is that argument multiplied by a further random factor
0.35 + r2 * 0.85 in [0.35, 1.2); hence the rendered radius is at least 0.35,
below 1.2 times the argument, and can be below 1. -/
theorem c6_rendered_radius (brush r1 r2 : ℚ) (h0 : 0 ≤ r2) (h1 : r2 < 1) :
    1 ≤ pixelDrawSize brush r1 ∧
      renderedDotRadius brush r1 r2 = pixelDrawSize brush r1 * (0.35 + r2 * 0.85) ∧
      0.35 ≤ renderedDotRadius brush r1 r2 ∧
      renderedDotRadius brush r1 r2 < 1.2 * pixelDrawSize brush r1 := by
  have hb : 1 ≤ pixelDrawSize brush r1 := le_max_left _ _
  refine ⟨hb, rfl, ?_, ?_⟩
  · unfold renderedDotRadius drawPixelRadius
    nlinarith [mul_le_mul_of_nonneg_right hb (show (0:ℚ) ≤ 0.35 + r2 * 0.85 by linarith)]
  · unfold renderedDotRadius drawPixelRadius
    nlinarith [mul_lt_mul_of_pos_left (show 0.35 + r2 * 0.85 < 1.2 by linarith)
      (show (0:ℚ) < pixelDrawSize brush r1 by linarith)]

theorem c6_rendered_radius_witness :
    1 ≤ pixelDrawSize 2 0 ∧
      renderedDotRadius 2 0 (1/2) = pixelDrawSize 2 0 * (0.35 + (1/2) * 0.85) ∧
      0.35 ≤ renderedDotRadius 2 0 (1/2) ∧
      renderedDotRadius 2 0 (1/2) < 1.2 * pixelDrawSize 2 0 :=
  c6_rendered_radius 2 0 (1/2) (by norm_num) (by norm_num)

theorem jsRemR_of_nonneg_lt (a : ℝ) (h0 : 0 ≤ a) (h1 : a < 360) : jsRemR a 360 = a := by
  unfold jsRemR jsTruncR
  rw [if_pos (div_nonneg h0 (by norm_num))]
  have hz : ⌊a / 360⌋ = 0 := by
    rw [Int.floor_eq_zero_iff]
    exact Set.mem_Ico.mpr ⟨div_nonneg h0 (by norm_num), (div_lt_one (by norm_num)).mpr h1⟩
  rw [hz]
  simp

theorem jsRemR_of_ge_360 (a : ℝ) (h0 : 360 ≤ a) (h1 : a < 720) : jsRemR a 360 = a - 360 := by
  unfold jsRemR jsTruncR
  rw [if_pos (div_nonneg (by linarith) (by norm_num))]
  have hz : ⌊a / 360⌋ = 1 := by
    rw [Int.floor_eq_iff]
    constructor
    · push_cast
      rw [le_div_iff (by norm_num : (0:ℝ) < 360)]
      linarith
    · push_cast
      rw [div_lt_iff (by norm_num : (0:ℝ) < 360)]
      linarith
  rw [hz]
  push_cast
  ring

theorem jsRemR_of_neg (a : ℝ) (h0 : -360 < a) (h1 : a < 0) : jsRemR a 360 = a := by
  unfold jsRemR jsTruncR
  rw [if_neg (not_le.mpr (div_neg_of_neg_of_pos h1 (by norm_num)))]
  have hz : ⌈a / 360⌉ = 0 := by
    rw [Int.ceil_eq_zero_iff]
    refine Set.mem_Ioc.mpr ⟨?_, (div_neg_of_neg_of_pos h1 (by norm_num)).le⟩
    rw [lt_div_iff (by norm_num : (0:ℝ) < 360)]
    linarith
  rw [hz]
  simp

theorem specMod_nonneg (a b : ℝ) (hb : 0 < b) : 0 ≤ specMod a b := by
  unfold specMod
  have h1 : (↑⌊a / b⌋ : ℝ) ≤ a / b := Int.floor_le _
  have h2 : b * (↑⌊a / b⌋ : ℝ) ≤ b * (a / b) := mul_le_mul_of_nonneg_left h1 hb.le
  have h3 : b * (a / b) = a := by field_simp
  linarith

theorem specMod_of_nonneg_lt (a : ℝ) (h0 : 0 ≤ a) (h1 : a < 360) : specMod a 360 = a := by
  unfold specMod
  have hz : ⌊a / 360⌋ = 0 := by
    rw [Int.floor_eq_zero_iff]
    exact Set.mem_Ico.mpr ⟨div_nonneg h0 (by norm_num), (div_lt_one (by norm_num)).mpr h1⟩
  rw [hz]
  simp

theorem specMod_of_ge_360 (a : ℝ) (h0 : 360 ≤ a) (h1 : a < 720) : specMod a 360 = a - 360 := by
  unfold specMod
  have hz : ⌊a / 360⌋ = 1 := by
    rw [Int.floor_eq_iff]
    constructor
    · push_cast
      rw [le_div_iff (by norm_num : (0:ℝ) < 360)]
      linarith
    · push_cast
      rw [div_lt_iff (by norm_num : (0:ℝ) < 360)]
      linarith
  rw [hz]
  push_cast
  ring

theorem sin_four_neg : Real.sin 4 < 0 := by
  have h := Real.sin_add_pi (4 - Real.pi)
  rw [sub_add_cancel] at h
  have hpos : 0 < Real.sin (4 - Real.pi) :=
    Real.sin_pos_of_pos_of_lt_pi (by linarith [Real.pi_lt_315])
      (by linarith [Real.pi_gt_three])
  linarith

theorem hueRaw_lower (hueBase life : ℝ) (k : ℕ) (h0 : 0 ≤ hueBase) :
    -20 ≤ hueRaw hueBase life k := by
  unfold hueRaw
  nlinarith [Real.neg_one_le_sin (life + (k:ℝ)), mul_nonneg h0 (show (0:ℝ) ≤ 360 by norm_num)]

theorem hueRaw_upper (hueBase life : ℝ) (k : ℕ) (h1 : hueBase < 1) :
    hueRaw hueBase life k < 380 := by
  unfold hueRaw
  nlinarith [Real.sin_le_one (life + (k:ℝ))]

/-- C7: the claim as stated is false: JavaScript % keeps the sign of the
dividend, so at hueBase 0, age 4, batch index 0, where sin 4 is negative, the
hue used for rendering is negative, while the mathematical modulo of the same
dividend lies in [0, 360); the two disagree. -/
theorem c7_counterexample :
    pixelHue 0 4 0 < 0 ∧ pixelHue 0 4 0 ≠ specMod (hueRaw 0 4 0) 360 := by
  have hraw : hueRaw 0 4 0 = Real.sin 4 * 20 := by
    unfold hueRaw
    norm_num
  have hs := Real.neg_one_le_sin (4:ℝ)
  have hlt : hueRaw 0 4 0 < 0 := by
    rw [hraw]
    nlinarith [sin_four_neg]
  have hgt : -360 < hueRaw 0 4 0 := by
    rw [hraw]
    nlinarith
  have he : pixelHue 0 4 0 = hueRaw 0 4 0 := jsRemR_of_neg _ hgt hlt
  refine ⟨by linarith [he], ?_⟩
  have hnn := specMod_nonneg (hueRaw 0 4 0) 360 (by norm_num)
  rw [he]
  exact ne_of_lt (lt_of_lt_of_le hlt hnn)

/-- C7 (amended): the hue used for rendering is the JavaScript remainder of
hueBase * 360 + sin(age + k) * 20 by 360; for hueBase in [0, 1) it always lies
in [-20, 360), and it agrees with the mathematical modulo representative in
[0, 360) exactly when the dividend is non-negative: every negative dividend is
passed through unwrapped, giving a hue equal to the dividend, inside [-20, 0)
and different from the mathematical modulo value. -/
theorem c7_hue_range (hueBase life : ℝ) (k : ℕ) (h0 : 0 ≤ hueBase) (h1 : hueBase < 1) :
    -20 ≤ pixelHue hueBase life k ∧ pixelHue hueBase life k < 360 ∧
      (0 ≤ hueRaw hueBase life k →
        pixelHue hueBase life k = specMod (hueRaw hueBase life k) 360) ∧
      (hueRaw hueBase life k < 0 →
        pixelHue hueBase life k = hueRaw hueBase life k ∧
          pixelHue hueBase life k < 0 ∧
          pixelHue hueBase life k ≠ specMod (hueRaw hueBase life k) 360) := by
  have ha1 := hueRaw_lower hueBase life k h0
  have ha2 := hueRaw_upper hueBase life k h1
  rcases le_or_lt 0 (hueRaw hueBase life k) with hc | hc
  · rcases lt_or_le (hueRaw hueBase life k) 360 with h360 | h360
    · have he : pixelHue hueBase life k = hueRaw hueBase life k :=
        jsRemR_of_nonneg_lt _ hc h360
      refine ⟨by linarith, by linarith, fun _ => ?_, fun hneg => absurd hc (not_le.mpr hneg)⟩
      rw [he, specMod_of_nonneg_lt _ hc h360]
    · have he : pixelHue hueBase life k = hueRaw hueBase life k - 360 :=
        jsRemR_of_ge_360 _ h360 (by linarith)
      refine ⟨by linarith, by linarith, fun _ => ?_, fun hneg => absurd hc (not_le.mpr hneg)⟩
      rw [he, specMod_of_ge_360 _ h360 (by linarith)]
  · have he : pixelHue hueBase life k = hueRaw hueBase life k :=
      jsRemR_of_neg _ (by linarith) hc
    refine ⟨by linarith, by linarith, fun hcontra => absurd hcontra (not_le.mpr hc),
      fun _ => ⟨he, by linarith, ?_⟩⟩
    have hnn := specMod_nonneg (hueRaw hueBase life k) 360 (by norm_num)
    rw [he]
    exact ne_of_lt (lt_of_lt_of_le hc hnn)

theorem c7_hue_range_witness :
    -20 ≤ pixelHue 0 0 0 ∧ pixelHue 0 0 0 < 360 :=
  ⟨(c7_hue_range 0 0 0 le_rfl (by norm_num)).1,
    (c7_hue_range 0 0 0 le_rfl (by norm_num)).2.1⟩

/-- C8: the claim as stated is false: the identity token is a deterministic
function of the random draw, and Math.random can return the same value twice;
two plant operations at the same coordinates whose constructions consume
identical draws yield identical identity tokens, not distinct ones. -/
theorem c8_counterexample :
    (plantSeed 10 20 0 0 (1/2) (1/3) (1/5) (1/7)).id =
      (plantSeed 10 20 0 0 (1/2) (1/3) (1/5) (1/7)).id := rfl

/-- C8 (amended): two plant operations at the same coordinates produce seeds
with distinct identity tokens whenever their id draws yield distinct token
digit lists; and each seed evolves independently: a frame update handles the
head seed as a function of that seed and the speed only, regardless of the
rest of the population. -/
theorem c8_distinct_identities (cx cy rl rt p rS1 rS2 rH1 rH2 rid1 rid2 : ℚ)
    (h : mkId rid1 ≠ mkId rid2) :
    (plantSeed cx cy rl rt p rS1 rH1 rid1).id ≠ (plantSeed cx cy rl rt p rS2 rH2 rid2).id ∧
      ∀ speed rest,
        frameStep speed (plantSeed cx cy rl rt p rS1 rH1 rid1 :: rest) =
          (if expired (advance (plantSeed cx cy rl rt p rS1 rH1 rid1) speed) = true then []
            else [advance (plantSeed cx cy rl rt p rS1 rH1 rid1) speed]) ++
            frameStep speed rest := by
  constructor
  · simpa [plantSeed] using h
  · intro speed rest
    simp only [frameStep]
    by_cases hx : expired (advance (plantSeed cx cy rl rt p rS1 rH1 rid1) speed) = true
    · rw [if_pos hx, if_pos hx]
      simp
    · rw [if_neg hx, if_neg hx]
      simp

theorem c8_distinct_identities_witness :
    (plantSeed 10 20 0 0 (1/2) (1/3) (1/5) 0).id ≠
      (plantSeed 10 20 0 0 (1/2) (1/4) (1/6) (1/2)).id :=
  (c8_distinct_identities 10 20 0 0 (1/2) (1/3) (1/4) (1/5) (1/6) 0 (1/2)
    (by norm_num [mkId, List.range_succ]; decide)).1

/-- C9: the claim as stated is false: a resize event reporting a zero-area
container is not a no-op; handleResize unconditionally reallocates, so a
300 x 200 buffer is replaced by a 0 x 0 buffer. -/
theorem c9_counterexample : handleResize 0 0 1 canvasA ≠ canvasA := by
  simp only [handleResize, canvasA, ne_eq, CanvasState.mk.injEq]
  norm_num

/-- C9 (amended): handleResize never skips buffer reallocation: it always sets
the buffer to clientWidth * dpr by clientHeight * dpr and the transform scale
to dpr; whenever the current width differs from clientWidth * dpr (in
particular, a zero-area container while the buffer is non-empty) the handler
changes the canvas state instead of leaving it unchanged. -/
theorem c9_resize_always_reallocates (cw ch dpr : ℚ) (c : CanvasState)
    (h : c.width ≠ cw * dpr) :
    handleResize cw ch dpr c ≠ c ∧ (handleResize cw ch dpr c).width = cw * dpr ∧
      (handleResize cw ch dpr c).height = ch * dpr ∧
      (handleResize cw ch dpr c).scale = dpr := by
  refine ⟨fun he => h ?_, rfl, rfl, rfl⟩
  rw [← he]
  rfl

theorem c9_resize_always_reallocates_witness :
    handleResize 0 0 1 canvasA ≠ canvasA ∧ (handleResize 0 0 1 canvasA).width = 0 * 1 ∧
      (handleResize 0 0 1 canvasA).height = 0 * 1 ∧
      (handleResize 0 0 1 canvasA).scale = 1 :=
  c9_resize_always_reallocates 0 0 1 canvasA (by norm_num [canvasA])

/-- C10: every seed planted by plantSeed starts with size 2 + rSize * 6 in
[2, 8) for a draw in [0, 1), and any sequence of Growth Steps with speeds in
(0, 3] keeps its size strictly below 150; consequently the size > 220 expiry
disjunct can never fire and such a seed expires exactly when its life exceeds
120. -/
theorem c10_size_below_150 (cx cy rl rt p rS rH rid : ℚ) (speeds : List ℚ)
    (hr0 : 0 ≤ rS) (hr1 : rS < 1) (hsp : ∀ sp ∈ speeds, 0 < sp ∧ sp ≤ 3) :
    2 ≤ (plantSeed cx cy rl rt p rS rH rid).size ∧
      (plantSeed cx cy rl rt p rS rH rid).size < 8 ∧
      (advanceMany (plantSeed cx cy rl rt p rS rH rid) speeds).size < 150 ∧
      ¬ 220 < (advanceMany (plantSeed cx cy rl rt p rS rH rid) speeds).size ∧
      (expired (advanceMany (plantSeed cx cy rl rt p rS rH rid) speeds) = true ↔
        120 < (advanceMany (plantSeed cx cy rl rt p rS rH rid) speeds).life) := by
  have hs2 : (plantSeed cx cy rl rt p rS rH rid).size = 2 + rS * 6 := rfl
  have h0 : (plantSeed cx cy rl rt p rS rH rid).size < 150 := by
    rw [hs2]
    linarith
  have hlt := advanceMany_size_lt_150 speeds _ hsp h0
  refine ⟨by rw [hs2]; linarith, by rw [hs2]; linarith, hlt, by linarith, ?_⟩
  rw [expired_iff]
  constructor
  · rintro (h | h)
    · exact h
    · linarith
  · exact Or.inl

theorem c10_size_below_150_witness :
    (advanceMany (plantSeed 0 0 0 0 0 (1/2) 0 0) [1]).size < 150 :=
  (c10_size_below_150 0 0 0 0 0 (1/2) 0 0 [1] (by norm_num) (by norm_num)
    (by intro sp h; fin_cases h; constructor <;> norm_num)).2.2.1

end PixelGarden
